import Mathlib

/-!
Verification of the agent-core components of `smart_browsing_ai`:
the procedural-memory compactor (`browser_use/agent/memory/service.py`,
`Memory.create_procedural_memory` and `Memory._create`) and the interrupt
controller (`browser_use/utils.py`, `SignalHandler`).

The history data model (`ManagedMessage`, `MessageMetadata`, the message
history with its running token counter) lives in
`browser_use/agent/message_manager`, which is not part of the sources at
hand; those containers are modelled from the spec (§3 DATA MODEL).  The
compaction algorithm itself and the signal handlers are embedded directly
from the Python sources.
-/

namespace SmartBrowsing

/-! ### Data model (history store) -/

/-- Modelled from the spec: the kind tag of `MessageMetadata`
(`kind: enum{init, state, action, result, memory}`, §3). -/
inductive MessageKind where
  | init
  | state
  | action
  | result
  | memory
deriving DecidableEq, Repr

/-- Modelled from the spec: a message is an opaque content payload
(`Message: opaque content payload plus a role tag`, §3); only the content
matters to the compactor (`len(msg.message.content) > 0` in the source),
so the role tag is omitted. -/
structure BaseMessage where
  content : String
deriving DecidableEq, Repr

/-- Modelled from the spec: `MessageMetadata = { size : integer ≥ 0, kind }`
(§3); the source calls the size field `tokens` and the kind field
`message_type`. -/
structure MessageMetadata where
  tokens : Nat
  message_type : MessageKind
deriving DecidableEq, Repr

/-- Modelled from the spec: a `ManagedMessage` is a message together with
its metadata, attached 1:1 (§3). -/
structure ManagedMessage where
  message : BaseMessage
  metadata : MessageMetadata
deriving DecidableEq, Repr

/-- Modelled from the spec: the History is an ordered sequence of
`ManagedMessage` plus the running counter `current_size` (§3); the source
calls the counter `current_tokens`.  Python integers are unbounded and the
source subtracts from the counter, so it is embedded as `Int`. -/
structure MessageHistory where
  messages : List ManagedMessage
  current_tokens : Int
deriving DecidableEq, Repr

/-- Sum of the metadata token sizes of a list of managed messages. -/
def sumTokens (l : List ManagedMessage) : Nat :=
  (l.map (fun m => m.metadata.tokens)).sum

/-- The spec's History invariant:
`current_size == sum(size of all contained ManagedMessage)` (§3). -/
def MessageHistory.invariant (h : MessageHistory) : Prop :=
  h.current_tokens = (sumTokens h.messages : Int)

/-! ### Memory compactor (`Memory` in `browser_use/agent/memory/service.py`) -/

/-- `msg.metadata.message_type in {'init', 'memory'}`
(service.py line 103). -/
def isExempt (m : ManagedMessage) : Bool :=
  match m.metadata.message_type with
  | .init => true
  | .memory => true
  | _ => false

/-- A compaction candidate: not exempt and with non-empty content
(`len(msg.message.content) > 0`, service.py line 107; `len(s) > 0` on a
Python string is its non-emptiness). -/
def isCandidate (m : ManagedMessage) : Bool :=
  !(isExempt m) && !(m.message.content.isEmpty)

/-- The partition loop of `create_procedural_memory` (service.py lines
99-108): exempt messages go to `new_messages`, non-exempt messages with
non-empty content go to `messages_to_process`, non-exempt messages with
empty content go to neither. -/
def partitionMessages : List ManagedMessage → List ManagedMessage × List ManagedMessage
  | [] => ([], [])
  | msg :: rest =>
    let p := partitionMessages rest
    if isExempt msg then (msg :: p.1, p.2)
    else if msg.message.content.isEmpty then p
    else (p.1, msg :: p.2)

/-- The `messages_to_process` list computed by `create_procedural_memory`. -/
def messagesToProcess (l : List ManagedMessage) : List ManagedMessage :=
  (partitionMessages l).2

/-- The payload handed to `Memory._create`
(`[m.message for m in messages_to_process]`, service.py line 114). -/
def summarizerInput (l : List ManagedMessage) : List BaseMessage :=
  (messagesToProcess l).map (fun m => m.message)

/-- Outcome of the external `mem0.add` call inside `Memory._create`
(service.py lines 139-152): either the call raises, or it returns a
`results` list whose entries each carry an optional `memory` string. -/
inductive SummarizerResponse where
  | raises
  | results (l : List (Option String))
deriving DecidableEq, Repr

/-- Embedding of `Memory._create` (service.py lines 138-152): an exception
from the collaborator is caught and turned into `None`; an empty `results`
list yields `None`; otherwise the first entry's `memory` field (itself
possibly absent) is returned.  Totality of this function embeds the
`try/except` — no exception escapes `_create`. -/
def Memory.createRes : SummarizerResponse → Option String
  | .raises => none
  | .results [] => none
  | .results (m :: _) => m

/-- Python's falsiness test `if not memory_content` (service.py line 117)
on an `Optional[str]`: true for `None` and for the empty string. -/
def falsyContent : Option String → Bool
  | none => true
  | some s => s.isEmpty

/-- The synthetic memory message built from a summary (service.py lines
122-130). -/
def mkMemoryMessage (content : String) (tok : Nat) : ManagedMessage :=
  { message := { content := content }
    metadata := { tokens := tok, message_type := .memory } }

/-- Embedding of `Memory.create_procedural_memory` (service.py lines
87-136).  `count_tokens` stands for
`self.message_manager._count_tokens` (message-manager code not in the
sources; modelled from the spec as an arbitrary size computation,
"wrap the summary as a new ManagedMessage with kind=memory and computed
size", §4.2).  `summarize` stands for the external summarization
collaborator reached through `Memory._create`; it is applied to exactly the
payload the source sends. -/
def create_procedural_memory (count_tokens : String → Nat)
    (summarize : List BaseMessage → SummarizerResponse)
    (h : MessageHistory) : MessageHistory :=
  let all_messages := h.messages
  let part := partitionMessages all_messages
  let new_messages := part.1
  let messages_to_process := part.2
  if messages_to_process.length ≤ 1 then h
  else
    let memory_content :=
      Memory.createRes (summarize (messages_to_process.map (fun m => m.message)))
    if falsyContent memory_content then h
    else
      match memory_content with
      | none => h
      | some content =>
        let memory_tokens := count_tokens content
        let removed_tokens := sumTokens messages_to_process
        { messages := new_messages ++ [mkMemoryMessage content memory_tokens]
          current_tokens := h.current_tokens - (removed_tokens : Int) + (memory_tokens : Int) }

/-- The total token size removed by a successful compaction
(`sum(m.metadata.tokens for m in messages_to_process)`, line 126). -/
def removedTokens (h : MessageHistory) : Nat :=
  sumTokens (messagesToProcess h.messages)

/-- The placement the spec claims for the summary message: it stands where
the earliest replaced candidate stood, with the kept exempt messages
retaining their relative order around it.  Stated from the spec's words
("the summary message is inserted logically where the earliest replaced
candidate was, preserving the kept init-kind messages' original relative
order around it", §4.2) for comparison against the source's behaviour. -/
def claimedPlacement (summary : ManagedMessage) : List ManagedMessage → List ManagedMessage
  | [] => [summary]
  | m :: rest =>
    if isExempt m then m :: claimedPlacement summary rest
    else if m.message.content.isEmpty then claimedPlacement summary rest
    else summary :: rest.filter isExempt

/-! ### Interrupt controller (`SignalHandler` in `browser_use/utils.py`)

The handlers are embedded as transformers of an explicit state that records
the module-global `_exiting` flag, the loop attributes `ctrl_c_pressed` and
`waiting_for_input`, the live asyncio tasks, how many times each
caller-supplied callback has been invoked, whether an exception escaped a
handler call, and whether `os._exit` was reached.  Signal deliveries are
serialized (asyncio runs `loop.add_signal_handler` callbacks on the event
loop), so a run is a sequence of events folded over the state. -/

/-- An asyncio task as seen by `_cancel_interruptible_tasks`: a display
name, its done flag, and whether `cancel()` has been called on it. -/
structure TaskInfo where
  name : List Char
  done : Bool
  cancelled : Bool
deriving DecidableEq, Repr

/-- Configuration of a `SignalHandler` instance: the constructor arguments
`exit_on_second_int` and `interruptible_task_patterns`, which callbacks
were supplied, and — to reason about error handling — whether each supplied
callback raises when invoked. -/
structure HandlerConfig where
  exit_on_second_int : Bool
  interruptible_task_patterns : List (List Char)
  has_pause_callback : Bool
  pause_cb_raises : Bool
  has_resume_callback : Bool
  resume_cb_raises : Bool
  has_exit_callback : Bool
  exit_cb_raises : Bool
deriving DecidableEq, Repr

/-- The observable state of a run. -/
structure SigState where
  exiting : Bool
  ctrl_c_pressed : Bool
  waiting_for_input : Bool
  tasks : List TaskInfo
  pauseCalls : Nat
  resumeCalls : Nat
  exitCalls : Nat
  uncaught : Bool
  terminated : Bool
deriving DecidableEq, Repr

/-- Fresh state at `SignalHandler` registration: `_exiting = False`,
`_initialize_loop_state` clears both loop flags (utils.py lines 71-74). -/
def initSigState (tasks : List TaskInfo) : SigState :=
  { exiting := false, ctrl_c_pressed := false, waiting_for_input := false
    tasks := tasks, pauseCalls := 0, resumeCalls := 0, exitCalls := 0
    uncaught := false, terminated := false }

/-- `p` occurs at the head of `s` (prefix test, auxiliary for Python's
substring operator `in`). -/
def hasPrefixAt : List Char → List Char → Bool
  | [], _ => true
  | _ :: _, [] => false
  | p :: ps, c :: cs => p == c && hasPrefixAt ps cs

/-- Python's `pattern in task_name`: `p` occurs as a contiguous substring
of `s`. -/
def substrB (p : List Char) : List Char → Bool
  | [] => hasPrefixAt p []
  | c :: cs => hasPrefixAt p (c :: cs) || substrB p cs

/-- `any(pattern in task_name for pattern in self.interruptible_task_patterns)`
(utils.py lines 205 and 214). -/
def taskMatches (patterns : List (List Char)) (name : List Char) : Bool :=
  patterns.any (fun p => substrB p name)

/-- The per-task effect of `_cancel_interruptible_tasks`: a task that is
not done and whose name matches a pattern is cancelled, every other task is
untouched. -/
def cancelIfMatches (patterns : List (List Char)) (t : TaskInfo) : TaskInfo :=
  if !t.done && taskMatches patterns t.name then { t with cancelled := true } else t

/-- Embedding of `SignalHandler._cancel_interruptible_tasks` (utils.py
lines 199-217).  The source walks the non-current tasks and then the
current task with the same not-done-and-matching test; the net per-task
effect is identical, so the two phases are embedded as one pass. -/
def cancel_interruptible_tasks (patterns : List (List Char))
    (tasks : List TaskInfo) : List TaskInfo :=
  tasks.map (cancelIfMatches patterns)

/-- `interruptible_task_patterns or ['step', 'multi_act', 'get_next_action']`
(utils.py line 60): the default list used when the constructor argument is
`None` or empty (both falsy in Python). -/
def resolvePatterns : Option (List (List Char)) → List (List Char)
  | none => ["step".toList, "multi_act".toList, "get_next_action".toList]
  | some [] => ["step".toList, "multi_act".toList, "get_next_action".toList]
  | some l => l

/-- Embedding of `SignalHandler._handle_second_ctrl_c` (utils.py lines
120-142): under the idempotency guard `if not _exiting`, set `_exiting` and
invoke the exit callback if provided — any exception from it is caught and
logged (lines 131-134), so `uncaught` is untouched; then `os._exit(0)` is
reached unconditionally. -/
def handle_second_ctrl_c (cfg : HandlerConfig) (s : SigState) : SigState :=
  let s1 :=
    if !s.exiting then
      { s with exiting := true
               exitCalls := s.exitCalls + (if cfg.has_exit_callback then 1 else 0) }
    else s
  { s1 with terminated := true }

/-- Embedding of `SignalHandler.sigint_handler` (utils.py lines 144-180).
If `_exiting` is already set, `os._exit(0)` at once.  A second Ctrl+C while
waiting for input returns (the wait path handles it); a second Ctrl+C
otherwise exits through `_handle_second_ctrl_c` when `exit_on_second_int`
(which never returns, so the fall-through code does not run).  Otherwise:
mark `ctrl_c_pressed`, cancel the interruptible tasks, and invoke the pause
callback with its exception caught and logged (lines 172-177). -/
def sigint_handler (cfg : HandlerConfig) (s : SigState) : SigState :=
  if s.terminated then s
  else if s.exiting then { s with terminated := true }
  else if s.ctrl_c_pressed && s.waiting_for_input then s
  else if s.ctrl_c_pressed && cfg.exit_on_second_int then handle_second_ctrl_c cfg s
  else
    let s1 := { s with ctrl_c_pressed := true
                       tasks := cancel_interruptible_tasks cfg.interruptible_task_patterns s.tasks }
    if cfg.has_pause_callback then { s1 with pauseCalls := s1.pauseCalls + 1 } else s1

/-- Embedding of `SignalHandler.sigterm_handler` (utils.py lines 182-197).
Under `if not _exiting`: set `_exiting` and invoke the exit callback — here
the call is NOT wrapped in `try/except`, so an exception from it propagates
out of the handler and the final `os._exit(0)` is never reached; otherwise
`os._exit(0)`. -/
def sigterm_handler (cfg : HandlerConfig) (s : SigState) : SigState :=
  if s.terminated then s
  else if !s.exiting then
    let s1 := { s with exiting := true }
    if cfg.has_exit_callback then
      if cfg.exit_cb_raises then
        { s1 with exitCalls := s1.exitCalls + 1, uncaught := true }
      else { s1 with exitCalls := s1.exitCalls + 1, terminated := true }
    else { s1 with terminated := true }
  else { s with terminated := true }

/-- Embedding of `SignalHandler.wait_for_resume` (utils.py lines 219-267),
parameterized by what the blocking `input()` produces: a second Ctrl+C
(`KeyboardInterrupt`, handled by `_handle_second_ctrl_c`, whose
`os._exit(0)` skips the `finally` block) or a resume.  On resume the resume
callback is invoked; its exceptions are NOT caught (the `except` clause
only matches `KeyboardInterrupt`), so they propagate to the caller — but
the `finally` block still clears `waiting_for_input`. -/
def wait_for_resume (cfg : HandlerConfig) (second_ctrl_c : Bool) (s : SigState) : SigState :=
  if s.terminated then s
  else
    let s0 := { s with waiting_for_input := true }
    if second_ctrl_c then handle_second_ctrl_c cfg s0
    else
      let s1 :=
        if cfg.has_resume_callback then
          if cfg.resume_cb_raises then
            { s0 with resumeCalls := s0.resumeCalls + 1, uncaught := true }
          else { s0 with resumeCalls := s0.resumeCalls + 1 }
        else s0
      { s1 with waiting_for_input := false }

/-- Embedding of `SignalHandler.reset` (utils.py lines 269-275): clears the
two loop flags. -/
def SignalHandler.reset (s : SigState) : SigState :=
  if s.terminated then s
  else { s with ctrl_c_pressed := false, waiting_for_input := false }

/-- The external events a run can experience. -/
inductive SigEvent where
  | sigint
  | sigterm
  | waitForResume (second_ctrl_c : Bool)
  | reset
deriving DecidableEq, Repr

/-- One event step. -/
def sigStep (cfg : HandlerConfig) (s : SigState) : SigEvent → SigState
  | .sigint => sigint_handler cfg s
  | .sigterm => sigterm_handler cfg s
  | .waitForResume b => wait_for_resume cfg b s
  | .reset => SignalHandler.reset s

/-- A whole run: fold the events over a state. -/
def sigRun (cfg : HandlerConfig) (s : SigState) (evs : List SigEvent) : SigState :=
  evs.foldl (sigStep cfg) s

/-! ### Lemmas about the memory compactor -/

instance (h : MessageHistory) : Decidable h.invariant := by
  unfold MessageHistory.invariant
  infer_instance

theorem partition_fst (l : List ManagedMessage) :
    (partitionMessages l).1 = l.filter isExempt := by
  induction l with
  | nil => rfl
  | cons m rest ih =>
    simp only [partitionMessages, List.filter]
    cases he : isExempt m with
    | true => simp [he, ih]
    | false =>
      cases hc : m.message.content.isEmpty with
      | true => simp [he, hc, ih]
      | false => simp [he, hc, ih]

theorem partition_snd (l : List ManagedMessage) :
    (partitionMessages l).2 = l.filter isCandidate := by
  induction l with
  | nil => rfl
  | cons m rest ih =>
    simp only [partitionMessages, List.filter]
    cases he : isExempt m with
    | true => simp [isCandidate, he, ih]
    | false =>
      cases hc : m.message.content.isEmpty with
      | true => simp [isCandidate, he, hc, ih]
      | false => simp [isCandidate, he, hc, ih]

theorem sumTokens_append (a b : List ManagedMessage) :
    sumTokens (a ++ b) = sumTokens a + sumTokens b := by
  simp [sumTokens]

/-- When every non-exempt message has non-empty content, the exempt and
candidate filters partition the token sum. -/
theorem sumTokens_split (l : List ManagedMessage) :
    (∀ m ∈ l, isExempt m = false → isCandidate m = true) →
    sumTokens l = sumTokens (l.filter isExempt) + sumTokens (l.filter isCandidate) := by
  induction l with
  | nil => intro _; rfl
  | cons m rest ih =>
    intro hall
    have hrest : ∀ x ∈ rest, isExempt x = false → isCandidate x = true := by
      intro x hx
      exact hall x (List.mem_cons_of_mem m hx)
    have heq := ih hrest
    cases he : isExempt m with
    | true =>
      have hnc : isCandidate m = false := by
        simp [isCandidate, he]
      simp only [sumTokens, List.map_cons, List.sum_cons] at heq ⊢
      simp [List.filter_cons, he, hnc]
      omega
    | false =>
      have hc : isCandidate m = true := hall m (List.mem_cons_self m rest) he
      simp only [sumTokens, List.map_cons, List.sum_cons] at heq ⊢
      simp [List.filter_cons, he, hc]
      omega

/-- No message passes both filters, so together they never exceed the
original length. -/
theorem filter_lengths_le (l : List ManagedMessage) :
    (l.filter isExempt).length + (l.filter isCandidate).length ≤ l.length := by
  induction l with
  | nil => simp
  | cons m rest ih =>
    cases he : isExempt m with
    | true =>
      have hnc : isCandidate m = false := by
        simp [isCandidate, he]
      simp [List.filter_cons, he, hnc]
      omega
    | false =>
      cases hc : isCandidate m with
      | true =>
        simp [List.filter_cons, he, hc]
        omega
      | false =>
        simp [List.filter_cons, he, hc]
        omega

theorem mem_messagesToProcess_candidate {m : ManagedMessage} {l : List ManagedMessage}
    (hm : m ∈ messagesToProcess l) : isCandidate m = true := by
  rw [messagesToProcess, partition_snd] at hm
  exact (List.mem_filter.mp hm).2

/-- Evaluation of `create_procedural_memory` when compaction succeeds:
at least two candidates and a non-empty summary. -/
theorem create_eq_of_success (ct : String → Nat)
    (sz : List BaseMessage → SummarizerResponse) (h : MessageHistory) (s : String)
    (hlen : 1 < (messagesToProcess h.messages).length)
    (hs : Memory.createRes (sz (summarizerInput h.messages)) = some s)
    (hne : s.isEmpty = false) :
    create_procedural_memory ct sz h =
      { messages := h.messages.filter isExempt ++ [mkMemoryMessage s (ct s)]
        current_tokens := h.current_tokens - (removedTokens h : Int) + (ct s : Int) } := by
  rw [messagesToProcess] at hlen
  rw [summarizerInput, messagesToProcess] at hs
  simp only [create_procedural_memory]
  rw [if_neg (by omega)]
  rw [hs]
  simp only [falsyContent, hne, if_false, Bool.false_eq_true]
  rw [partition_fst]
  rw [removedTokens, messagesToProcess]

/-- Evaluation of `create_procedural_memory` with at most one candidate:
the early return at service.py lines 111-113. -/
theorem create_eq_of_few (ct : String → Nat)
    (sz : List BaseMessage → SummarizerResponse) (h : MessageHistory)
    (hlen : (messagesToProcess h.messages).length ≤ 1) :
    create_procedural_memory ct sz h = h := by
  rw [messagesToProcess] at hlen
  simp only [create_procedural_memory]
  rw [if_pos hlen]

/-- Evaluation of `create_procedural_memory` when the summarizer yields a
falsy result (`None` — including a caught exception — or an empty string):
the abort at service.py lines 117-119. -/
theorem create_eq_of_falsy (ct : String → Nat)
    (sz : List BaseMessage → SummarizerResponse) (h : MessageHistory)
    (hf : falsyContent (Memory.createRes (sz (summarizerInput h.messages))) = true) :
    create_procedural_memory ct sz h = h := by
  rw [summarizerInput, messagesToProcess] at hf
  simp only [create_procedural_memory]
  by_cases hlen : (partitionMessages h.messages).2.length ≤ 1
  · rw [if_pos hlen]
  · rw [if_neg hlen, if_pos hf]

/-- Every call to `create_procedural_memory` either leaves the history
untouched or performs the successful-compaction replacement. -/
theorem create_shape (ct : String → Nat)
    (sz : List BaseMessage → SummarizerResponse) (h : MessageHistory) :
    create_procedural_memory ct sz h = h ∨
      ∃ s, Memory.createRes (sz (summarizerInput h.messages)) = some s ∧
        s.isEmpty = false ∧ 1 < (messagesToProcess h.messages).length ∧
        create_procedural_memory ct sz h =
          { messages := h.messages.filter isExempt ++ [mkMemoryMessage s (ct s)]
            current_tokens := h.current_tokens - (removedTokens h : Int) + (ct s : Int) } := by
  by_cases hlen : (messagesToProcess h.messages).length ≤ 1
  · exact Or.inl (create_eq_of_few ct sz h hlen)
  · cases hres : Memory.createRes (sz (summarizerInput h.messages)) with
    | none =>
      refine Or.inl (create_eq_of_falsy ct sz h ?_)
      rw [hres]
      rfl
    | some s =>
      cases hne : s.isEmpty with
      | true =>
        refine Or.inl (create_eq_of_falsy ct sz h ?_)
        rw [hres]
        simpa [falsyContent] using hne
      | false =>
        exact Or.inr ⟨s, rfl, hne, by omega,
          create_eq_of_success ct sz h s (by omega) hres hne⟩

/-! ### Lemmas about the interrupt controller -/

theorem hasPrefixAt_iff (p : List Char) :
    ∀ s, hasPrefixAt p s = true ↔ ∃ r, s = p ++ r := by
  induction p with
  | nil =>
    intro s
    simp [hasPrefixAt]
  | cons a ps ih =>
    intro s
    cases s with
    | nil =>
      simp [hasPrefixAt]
    | cons c cs =>
      simp only [hasPrefixAt, Bool.and_eq_true, beq_iff_eq, ih cs]
      constructor
      · rintro ⟨hac, r, hr⟩
        exact ⟨r, by simp [hac, hr]⟩
      · rintro ⟨r, hr⟩
        simp only [List.cons_append, List.cons.injEq] at hr
        exact ⟨hr.1.symm, r, hr.2⟩

theorem substrB_iff (p : List Char) :
    ∀ s, substrB p s = true ↔ ∃ l r, s = l ++ p ++ r := by
  intro s
  induction s with
  | nil =>
    simp only [substrB, hasPrefixAt_iff]
    constructor
    · rintro ⟨r, hr⟩
      exact ⟨[], r, by simpa using hr⟩
    · rintro ⟨l, r, hr⟩
      cases l with
      | nil => exact ⟨r, by simpa using hr⟩
      | cons a l' => simp at hr
  | cons c cs ih =>
    simp only [substrB, Bool.or_eq_true, hasPrefixAt_iff, ih]
    constructor
    · rintro (⟨r, hr⟩ | ⟨l, r, hr⟩)
      · exact ⟨[], r, by simpa using hr⟩
      · exact ⟨c :: l, r, by simp [hr]⟩
    · rintro ⟨l, r, hr⟩
      cases l with
      | nil => exact Or.inl ⟨r, by simpa using hr⟩
      | cons a l' =>
        simp only [List.cons_append, List.append_assoc, List.cons.injEq] at hr
        exact Or.inr ⟨l', r, by simp [hr.2]⟩

theorem taskMatches_iff (patterns : List (List Char)) (name : List Char) :
    taskMatches patterns name = true ↔ ∃ p ∈ patterns, ∃ l r, name = l ++ p ++ r := by
  simp only [taskMatches, List.any_eq_true, substrB_iff]

/-- The idempotency invariant of the exit path: the exit callback has never
been invoked before `_exiting` is set, and never more than once. -/
def exitInv (s : SigState) : Prop :=
  (s.exiting = false → s.exitCalls = 0) ∧ s.exitCalls ≤ 1

theorem handle_second_preserves (cfg : HandlerConfig) (s : SigState)
    (hi : exitInv s) : exitInv (handle_second_ctrl_c cfg s) := by
  obtain ⟨h0, h1⟩ := hi
  unfold handle_second_ctrl_c
  split
  next hx =>
    have hx0 : s.exiting = false := by
      cases h : s.exiting
      · rfl
      · rw [h] at hx; simp at hx
    have hc := h0 hx0
    refine ⟨fun habs => absurd habs (by simp), ?_⟩
    show s.exitCalls + (if cfg.has_exit_callback then 1 else 0) ≤ 1
    cases cfg.has_exit_callback <;> simp [hc]
  next hx =>
    exact ⟨fun h => h0 h, h1⟩

theorem sigint_preserves (cfg : HandlerConfig) (s : SigState)
    (hi : exitInv s) : exitInv (sigint_handler cfg s) := by
  obtain ⟨h0, h1⟩ := hi
  unfold sigint_handler
  split
  · exact ⟨h0, h1⟩
  split
  · exact ⟨fun h => h0 h, h1⟩
  split
  · exact ⟨h0, h1⟩
  split
  · exact handle_second_preserves cfg s ⟨h0, h1⟩
  split
  · exact ⟨fun h => h0 h, h1⟩
  · exact ⟨fun h => h0 h, h1⟩

theorem sigterm_preserves (cfg : HandlerConfig) (s : SigState)
    (hi : exitInv s) : exitInv (sigterm_handler cfg s) := by
  obtain ⟨h0, h1⟩ := hi
  unfold sigterm_handler
  split
  · exact ⟨h0, h1⟩
  split
  next hx =>
    have hx0 : s.exiting = false := by
      cases h : s.exiting
      · rfl
      · rw [h] at hx; simp at hx
    have hc := h0 hx0
    split
    · split
      · exact ⟨fun habs => absurd habs (by simp), by simp [hc]⟩
      · exact ⟨fun habs => absurd habs (by simp), by simp [hc]⟩
    · exact ⟨fun habs => absurd habs (by simp), by simp [hc]⟩
  next hx =>
    exact ⟨fun h => h0 h, h1⟩

theorem wait_preserves (cfg : HandlerConfig) (b : Bool) (s : SigState)
    (hi : exitInv s) : exitInv (wait_for_resume cfg b s) := by
  obtain ⟨h0, h1⟩ := hi
  unfold wait_for_resume
  split
  · exact ⟨h0, h1⟩
  split
  · exact handle_second_preserves cfg _ ⟨fun h => h0 h, h1⟩
  · split
    · split
      · exact ⟨fun h => h0 h, h1⟩
      · exact ⟨fun h => h0 h, h1⟩
    · exact ⟨fun h => h0 h, h1⟩

theorem sigStep_preserves (cfg : HandlerConfig) (s : SigState) (e : SigEvent)
    (hi : exitInv s) : exitInv (sigStep cfg s e) := by
  cases e with
  | sigint => exact sigint_preserves cfg s hi
  | sigterm => exact sigterm_preserves cfg s hi
  | waitForResume b => exact wait_preserves cfg b s hi
  | reset =>
    obtain ⟨h0, h1⟩ := hi
    show exitInv (SignalHandler.reset s)
    unfold SignalHandler.reset
    split
    · exact ⟨h0, h1⟩
    · exact ⟨fun h => h0 h, h1⟩

theorem sigRun_preserves (cfg : HandlerConfig) (evs : List SigEvent) :
    ∀ s, exitInv s → exitInv (sigRun cfg s evs) := by
  induction evs with
  | nil => intro s hs; exact hs
  | cons e rest ih =>
    intro s hs
    exact ih (sigStep cfg s e) (sigStep_preserves cfg s e hs)

/-! ### Concrete fixtures used by witnesses and counterexamples -/

/-- A managed message with the given content, token size and kind. -/
def mkMsg (c : String) (t : Nat) (k : MessageKind) : ManagedMessage :=
  { message := { content := c }, metadata := { tokens := t, message_type := k } }

/-- The spec's compaction scenario:
`[init(50), action(30), result(40), action(20)]`, `current_size` 140. -/
def hScenario : MessageHistory :=
  { messages := [mkMsg "sys" 50 .init, mkMsg "act1" 30 .action,
                 mkMsg "res1" 40 .result, mkMsg "act2" 20 .action]
    current_tokens := 140 }

/-- A history with two non-empty candidates and one empty-content
non-exempt message carrying 5 tokens. -/
def hEmptyTail : MessageHistory :=
  { messages := [mkMsg "x" 30 .action, mkMsg "y" 40 .result, mkMsg "" 5 .action]
    current_tokens := 75 }

/-- A history whose kept init message stands AFTER the earliest candidate. -/
def hInitLast : MessageHistory :=
  { messages := [mkMsg "a" 5 .action, mkMsg "i" 7 .init, mkMsg "b" 3 .action]
    current_tokens := 15 }

/-- A history with a single candidate. -/
def hOneCandidate : MessageHistory :=
  { messages := [mkMsg "sys" 10 .init, mkMsg "one" 5 .action]
    current_tokens := 15 }

/-- A handler configuration with all three callbacks supplied and all of
them raising when invoked. -/
def cfgRaise : HandlerConfig :=
  { exit_on_second_int := true, interruptible_task_patterns := resolvePatterns none
    has_pause_callback := true, pause_cb_raises := true
    has_resume_callback := true, resume_cb_raises := true
    has_exit_callback := true, exit_cb_raises := true }

/-- A handler configuration with the default interruptible-task patterns
and no callbacks. -/
def cfgDefault : HandlerConfig :=
  { exit_on_second_int := true, interruptible_task_patterns := resolvePatterns none
    has_pause_callback := false, pause_cb_raises := false
    has_resume_callback := false, resume_cb_raises := false
    has_exit_callback := false, exit_cb_raises := false }

/-- Live tasks: one matching `step`, one matching nothing, and a done task
matching `multi_act`. -/
def tasksW : List TaskInfo :=
  [{ name := "agent_step_3".toList, done := false, cancelled := false },
   { name := "browser_monitor".toList, done := false, cancelled := false },
   { name := "multi_act_run".toList, done := true, cancelled := false }]

/-- A state that is already exiting. -/
def sExiting : SigState :=
  { initSigState [] with exiting := true }

/-! ### Claims -/

/-- Claim C1, corrected.  The size invariant
`current_tokens = sum of contained token sizes` is NOT preserved by
`create_procedural_memory` for every history: a successful compaction drops
non-exempt messages with empty content from the history without
subtracting their token sizes.  This counterexample: history
`[action "x" (30), result "y" (40), action "" (5)]` with
`current_tokens = 75` satisfies the invariant, but after compaction with
summary `"s"` sized 15 the history is `[memory(15)]` while
`current_tokens = 75 - 70 + 15 = 20 ≠ 15`. -/
theorem claim_C1_counterexample :
    hEmptyTail.invariant ∧
      ¬ (create_procedural_memory (fun _ => 15)
          (fun _ => SummarizerResponse.results [some "s"]) hEmptyTail).invariant := by
  constructor
  · show (75 : Int) = ((30 + (40 + (5 + 0)) : Nat) : Int)
    norm_num
  · intro hinv
    have : (20 : Int) = ((15 + 0 : Nat) : Int) := hinv
    norm_num at this

/-- Claim C1, amended: provided additionally that every non-exempt message
in the history has non-empty content (so that no message is silently
dropped), `create_procedural_memory` preserves the invariant
`current_tokens = sum of the metadata token sizes of all contained
messages` for every summarizer outcome and every token counter. -/
theorem claim_C1_invariant_preserved (ct : String → Nat)
    (sz : List BaseMessage → SummarizerResponse) (h : MessageHistory)
    (hinv : h.invariant)
    (hall : ∀ m ∈ h.messages, isExempt m = false → m.message.content.isEmpty = false) :
    (create_procedural_memory ct sz h).invariant := by
  rcases create_shape ct sz h with hid | ⟨s, hs, hne, hlen, heq⟩
  · rw [hid]; exact hinv
  · rw [heq]
    unfold MessageHistory.invariant at hinv ⊢
    have hall' : ∀ m ∈ h.messages, isExempt m = false → isCandidate m = true := by
      intro m hm hex
      simp [isCandidate, hex, hall m hm hex]
    have hsplit := sumTokens_split h.messages hall'
    have hrem : removedTokens h = sumTokens (h.messages.filter isCandidate) := by
      rw [removedTokens, messagesToProcess, partition_snd]
    have happ : sumTokens (h.messages.filter isExempt ++ [mkMemoryMessage s (ct s)])
        = sumTokens (h.messages.filter isExempt) + ct s := by
      rw [sumTokens_append]
      simp [sumTokens, mkMemoryMessage]
    simp only at hinv ⊢
    rw [happ, hrem, hinv, hsplit]
    push_cast
    ring

/-- Claim C1 witness: a concrete invariant-respecting history with no
empty-content messages keeps the invariant through a compaction. -/
theorem claim_C1_witness :
    (MessageHistory.invariant
        { messages := [mkMsg "sys" 10 .init, mkMsg "a" 3 .action, mkMsg "b" 4 .action]
          current_tokens := 17 }
      ∧ ∀ m ∈ [mkMsg "sys" 10 .init, mkMsg "a" 3 .action, mkMsg "b" 4 .action],
          isExempt m = false → m.message.content.isEmpty = false)
    ∧ (create_procedural_memory (fun _ => 2)
        (fun _ => SummarizerResponse.results [some "m"])
        { messages := [mkMsg "sys" 10 .init, mkMsg "a" 3 .action, mkMsg "b" 4 .action]
          current_tokens := 17 }).invariant :=
  ⟨⟨by decide, by decide⟩,
    claim_C1_invariant_preserved _ _ _ (by decide) (by decide)⟩

/-- Claim C2: with at least two candidates and a summarizer that returns a
non-empty summary, `create_procedural_memory` collapses the candidates into
the single memory message appended to the kept messages, strictly
decreases the message count, and sets `current_tokens` to its old value
minus the candidates' total token size plus the summary's token size. -/
theorem claim_C2_compaction_success (ct : String → Nat)
    (sz : List BaseMessage → SummarizerResponse) (h : MessageHistory) (s : String)
    (hlen : 2 ≤ (messagesToProcess h.messages).length)
    (hs : Memory.createRes (sz (summarizerInput h.messages)) = some s)
    (hne : s.isEmpty = false) :
    (create_procedural_memory ct sz h).messages
        = h.messages.filter isExempt ++ [mkMemoryMessage s (ct s)]
      ∧ (create_procedural_memory ct sz h).messages.length < h.messages.length
      ∧ (create_procedural_memory ct sz h).current_tokens
        = h.current_tokens - (removedTokens h : Int) + (ct s : Int) := by
  have heq := create_eq_of_success ct sz h s (by omega) hs hne
  rw [heq]
  refine ⟨rfl, ?_, rfl⟩
  have hd := filter_lengths_le h.messages
  have hc : (h.messages.filter isCandidate).length
      = (messagesToProcess h.messages).length := by
    rw [messagesToProcess, partition_snd]
  simp only [List.length_append, List.length_cons, List.length_nil]
  omega

/-- Claim C2 witness: the spec's scenario.  History
`[init(50), action(30), result(40), action(20)]` with `current_tokens`
140 and a summary `"summary text"` sized 15 compacts to
`[init(50), memory(15)]` with `current_tokens` 65. -/
theorem claim_C2_witness :
    (2 ≤ (messagesToProcess hScenario.messages).length
      ∧ Memory.createRes ((fun _ => SummarizerResponse.results [some "summary text"])
          (summarizerInput hScenario.messages)) = some "summary text"
      ∧ "summary text".isEmpty = false)
    ∧ ((create_procedural_memory (fun _ => 15)
          (fun _ => SummarizerResponse.results [some "summary text"]) hScenario).messages
        = hScenario.messages.filter isExempt ++ [mkMemoryMessage "summary text" 15]
      ∧ (create_procedural_memory (fun _ => 15)
          (fun _ => SummarizerResponse.results [some "summary text"]) hScenario).messages.length
        < hScenario.messages.length
      ∧ (create_procedural_memory (fun _ => 15)
          (fun _ => SummarizerResponse.results [some "summary text"]) hScenario).current_tokens
        = hScenario.current_tokens - (removedTokens hScenario : Int) + ((15 : Nat) : Int))
    ∧ create_procedural_memory (fun _ => 15)
        (fun _ => SummarizerResponse.results [some "summary text"]) hScenario
      = { messages := [mkMsg "sys" 50 .init, mkMemoryMessage "summary text" 15]
          current_tokens := 65 } :=
  ⟨⟨by decide, by decide, by decide⟩,
    claim_C2_compaction_success _ _ _ _ (by decide) (by decide) (by decide),
    by decide⟩

/-- Claim C3, corrected.  The summary message is NOT placed at the position
of the earliest replaced candidate.  In history
`[action "a" (5), init "i" (7), action "b" (3)]` the earliest candidate
stands first and the kept init message follows it, so the claimed placement
is `[memory, init]`; the code instead appends the memory message after all
kept messages and produces `[init, memory]`. -/
theorem claim_C3_counterexample :
    2 ≤ (messagesToProcess hInitLast.messages).length
      ∧ (create_procedural_memory (fun _ => 2)
          (fun _ => SummarizerResponse.results [some "s"]) hInitLast).messages
        ≠ claimedPlacement (mkMemoryMessage "s" 2) hInitLast.messages := by
  decide

/-- Claim C3, amended: on a successful compaction the summary message is
appended at the END of the resulting history, after ALL kept init- and
memory-kind messages; the kept messages retain their original relative
order (the summary stands at the earliest candidate's position only when
every kept message precedes every candidate). -/
theorem claim_C3_summary_appended (ct : String → Nat)
    (sz : List BaseMessage → SummarizerResponse) (h : MessageHistory) (s : String)
    (hlen : 2 ≤ (messagesToProcess h.messages).length)
    (hs : Memory.createRes (sz (summarizerInput h.messages)) = some s)
    (hne : s.isEmpty = false) :
    (create_procedural_memory ct sz h).messages
      = h.messages.filter isExempt ++ [mkMemoryMessage s (ct s)] := by
  rw [create_eq_of_success ct sz h s (by omega) hs hne]

/-- Claim C3 witness: the amended placement at a concrete input — the init
message that followed the earliest candidate still precedes the summary. -/
theorem claim_C3_witness :
    (2 ≤ (messagesToProcess hInitLast.messages).length
      ∧ Memory.createRes ((fun _ => SummarizerResponse.results [some "s"])
          (summarizerInput hInitLast.messages)) = some "s"
      ∧ "s".isEmpty = false)
    ∧ (create_procedural_memory (fun _ => 2)
        (fun _ => SummarizerResponse.results [some "s"]) hInitLast).messages
      = hInitLast.messages.filter isExempt ++ [mkMemoryMessage "s" 2] :=
  ⟨⟨by decide, by decide, by decide⟩,
    claim_C3_summary_appended _ _ _ _ (by decide) (by decide) (by decide)⟩

/-- Claim C4: whenever the summarization collaborator raises (the
exception is caught inside `_create` and turned into `None`; the embedding
of `_create` is a total function, so nothing propagates past the compactor
boundary) or produces a falsy result (`None`, an empty `results` list, an
absent `memory` field, or an empty string), `create_procedural_memory`
returns with the history — messages and `current_tokens` — exactly
unchanged. -/
theorem claim_C4_failure_is_noop (ct : String → Nat)
    (sz : List BaseMessage → SummarizerResponse) (h : MessageHistory)
    (hf : falsyContent (Memory.createRes (sz (summarizerInput h.messages))) = true) :
    create_procedural_memory ct sz h = h :=
  create_eq_of_falsy ct sz h hf

/-- Claim C4 witness: a raising collaborator leaves the scenario history
untouched. -/
theorem claim_C4_witness :
    falsyContent (Memory.createRes ((fun _ => SummarizerResponse.raises)
        (summarizerInput hScenario.messages))) = true
    ∧ create_procedural_memory (fun _ => 15)
        (fun _ => SummarizerResponse.raises) hScenario = hScenario :=
  ⟨by decide, claim_C4_failure_is_noop _ _ _ (by decide)⟩

/-- Claim C8: when at most one message is a compaction candidate,
`create_procedural_memory` is a no-op for every token counter and every
summarization collaborator — the history is returned exactly unchanged and
the result does not depend on the collaborator at all. -/
theorem claim_C8_few_candidates_noop (h : MessageHistory)
    (hlen : (messagesToProcess h.messages).length ≤ 1) :
    ∀ (ct : String → Nat) (sz : List BaseMessage → SummarizerResponse),
      create_procedural_memory ct sz h = h := by
  intro ct sz
  exact create_eq_of_few ct sz h hlen

/-- Claim C8 witness: a history with a single candidate is unchanged. -/
theorem claim_C8_witness :
    (messagesToProcess hOneCandidate.messages).length ≤ 1
    ∧ create_procedural_memory (fun _ => 3)
        (fun _ => SummarizerResponse.results [some "m"]) hOneCandidate = hOneCandidate :=
  ⟨by decide, claim_C8_few_candidates_noop _ (by decide) _ _⟩

/-- Claim C9: an init- or memory-kind message is never a compaction
candidate — it is not in the list whose contents are sent to the
summarizer — and the kept exempt messages survive every call in their
original relative order (they form a sublist of the resulting messages). -/
theorem claim_C9_exempt_never_candidates (ct : String → Nat)
    (sz : List BaseMessage → SummarizerResponse) (h : MessageHistory)
    (m : ManagedMessage) (hm : isExempt m = true) :
    m ∉ messagesToProcess h.messages
    ∧ List.Sublist (h.messages.filter isExempt)
        ((create_procedural_memory ct sz h).messages) := by
  constructor
  · intro hmem
    have hc := mem_messagesToProcess_candidate hmem
    simp [isCandidate, hm] at hc
  · rcases create_shape ct sz h with hid | ⟨s, _, _, _, heq⟩
    · rw [hid]
      exact List.filter_sublist h.messages
    · rw [heq]
      exact List.sublist_append_left _ _

/-- Claim C9 witness: the init message of the scenario history is not a
candidate and the kept messages survive the compaction. -/
theorem claim_C9_witness :
    isExempt (mkMsg "sys" 50 .init) = true
    ∧ (mkMsg "sys" 50 .init ∉ messagesToProcess hScenario.messages
        ∧ List.Sublist (hScenario.messages.filter isExempt)
            ((create_procedural_memory (fun _ => 15)
              (fun _ => SummarizerResponse.results [some "summary text"])
              hScenario).messages)) :=
  ⟨by decide, claim_C9_exempt_never_candidates _ _ _ _ (by decide)⟩

/-- Claim C10: in a history with at least two candidates and a non-exempt
message `e` with empty content, a successful compaction drops `e` from the
stored history even though `e` was never a summarization candidate, while
`current_tokens` is decreased only by the candidates' total token size (so
`e`'s token size stays counted in `current_tokens`). -/
theorem claim_C10_empty_dropped_uncounted (ct : String → Nat)
    (sz : List BaseMessage → SummarizerResponse) (h : MessageHistory)
    (e : ManagedMessage) (s : String)
    (he : e ∈ h.messages) (hne : isExempt e = false)
    (hemp : e.message.content.isEmpty = true)
    (hlen : 2 ≤ (messagesToProcess h.messages).length)
    (hs : Memory.createRes (sz (summarizerInput h.messages)) = some s)
    (hsne : s.isEmpty = false) :
    e ∉ messagesToProcess h.messages
    ∧ e ∉ (create_procedural_memory ct sz h).messages
    ∧ (create_procedural_memory ct sz h).current_tokens
      = h.current_tokens - (removedTokens h : Int) + (ct s : Int) := by
  have heq := create_eq_of_success ct sz h s (by omega) hs hsne
  refine ⟨?_, ?_, by rw [heq]⟩
  · intro hmem
    have hc := mem_messagesToProcess_candidate hmem
    simp [isCandidate, hne, hemp] at hc
  · rw [heq]
    intro hmem
    simp only [List.mem_append, List.mem_singleton] at hmem
    rcases hmem with hmem | hmem
    · have := (List.mem_filter.mp hmem).2
      rw [hne] at this
      cases this
    · rw [hmem] at hne
      simp [isExempt, mkMemoryMessage] at hne

/-- Claim C5: across every sequence of interrupt / terminate / wait /
reset events in one run (starting from handler registration), the exit
callback is invoked at most once; and a signal delivered in an
already-exiting state terminates immediately without invoking the exit,
pause or resume callbacks again. -/
theorem claim_C5_exit_callback_once (cfg : HandlerConfig) (tasks : List TaskInfo)
    (evs : List SigEvent) (s : SigState) (hex : s.exiting = true) :
    (sigRun cfg (initSigState tasks) evs).exitCalls ≤ 1
    ∧ (sigint_handler cfg s).terminated = true
    ∧ (sigint_handler cfg s).exitCalls = s.exitCalls
    ∧ (sigint_handler cfg s).pauseCalls = s.pauseCalls
    ∧ (sigint_handler cfg s).resumeCalls = s.resumeCalls
    ∧ (sigterm_handler cfg s).terminated = true
    ∧ (sigterm_handler cfg s).exitCalls = s.exitCalls := by
  have hrun : exitInv (sigRun cfg (initSigState tasks) evs) :=
    sigRun_preserves cfg evs (initSigState tasks) ⟨fun _ => rfl, Nat.zero_le 1⟩
  refine ⟨hrun.2, ?_, ?_, ?_, ?_, ?_, ?_⟩ <;>
    cases hts : s.terminated <;>
      simp [sigint_handler, sigterm_handler, hts, hex]

/-- Claim C5 witness: a run of repeated interrupts and a terminate signal
invokes the exit callback at most once, and signals in the exiting state
terminate without re-invoking callbacks. -/
theorem claim_C5_witness :
    sExiting.exiting = true
    ∧ ((sigRun cfgRaise (initSigState [])
          [.sigint, .sigint, .sigterm, .sigint, .waitForResume true]).exitCalls ≤ 1
      ∧ (sigint_handler cfgRaise sExiting).terminated = true
      ∧ (sigint_handler cfgRaise sExiting).exitCalls = sExiting.exitCalls
      ∧ (sigint_handler cfgRaise sExiting).pauseCalls = sExiting.pauseCalls
      ∧ (sigint_handler cfgRaise sExiting).resumeCalls = sExiting.resumeCalls
      ∧ (sigterm_handler cfgRaise sExiting).terminated = true
      ∧ (sigterm_handler cfgRaise sExiting).exitCalls = sExiting.exitCalls) :=
  ⟨rfl, claim_C5_exit_callback_once cfgRaise [] _ sExiting rfl⟩

/-- Claim C6, corrected.  The claim fails on the SIGTERM path: there the
exit callback is invoked OUTSIDE any try/except (utils.py lines 193-195),
so with a raising exit callback the exception escapes the handler and the
final `os._exit(0)` is never reached — the process is not terminated by
the handler. -/
theorem claim_C6_counterexample :
    (sigterm_handler cfgRaise (initSigState [])).uncaught = true
    ∧ (sigterm_handler cfgRaise (initSigState [])).terminated = false := by
  decide

/-- Claim C6, amended: with all three callbacks supplied and raising when
invoked — a pause-callback exception is caught and logged and the pause
transition still completes without escaping; an exit-callback exception on
the second-Ctrl+C path is caught and the process still terminates; but a
resume-callback exception propagates out of `wait_for_resume` (only
`KeyboardInterrupt` is caught there), though the `finally` block still
clears the waiting flag; and an exit-callback exception in the SIGTERM
handler propagates uncaught and prevents the handler's immediate exit. -/
theorem claim_C6_callback_exceptions (cfg : HandlerConfig) (s : SigState)
    (hterm : s.terminated = false) (hexi : s.exiting = false)
    (hcc : s.ctrl_c_pressed = false)
    (hpc : cfg.has_pause_callback = true) (hpr : cfg.pause_cb_raises = true)
    (hrc : cfg.has_resume_callback = true) (hrr : cfg.resume_cb_raises = true)
    (hec : cfg.has_exit_callback = true) (her : cfg.exit_cb_raises = true) :
    ((sigint_handler cfg s).ctrl_c_pressed = true
      ∧ (sigint_handler cfg s).uncaught = s.uncaught)
    ∧ ((handle_second_ctrl_c cfg s).terminated = true
      ∧ (handle_second_ctrl_c cfg s).uncaught = s.uncaught)
    ∧ ((sigterm_handler cfg s).uncaught = true
      ∧ (sigterm_handler cfg s).terminated = false)
    ∧ ((wait_for_resume cfg false s).uncaught = true
      ∧ (wait_for_resume cfg false s).waiting_for_input = false) := by
  refine ⟨?_, ?_, ?_, ?_⟩
  · simp [sigint_handler, hterm, hexi, hcc, hpc]
  · constructor
    · rfl
    · unfold handle_second_ctrl_c
      split <;> rfl
  · simp [sigterm_handler, hterm, hexi, hec, her]
  · simp [wait_for_resume, hterm, hrc, hrr]

/-- Claim C6 witness: the amended behaviour at a concrete fresh state with
all callbacks raising. -/
theorem claim_C6_witness :
    ((initSigState []).terminated = false ∧ (initSigState []).exiting = false
      ∧ (initSigState []).ctrl_c_pressed = false
      ∧ cfgRaise.has_pause_callback = true ∧ cfgRaise.pause_cb_raises = true
      ∧ cfgRaise.has_resume_callback = true ∧ cfgRaise.resume_cb_raises = true
      ∧ cfgRaise.has_exit_callback = true ∧ cfgRaise.exit_cb_raises = true)
    ∧ (((sigint_handler cfgRaise (initSigState [])).ctrl_c_pressed = true
        ∧ (sigint_handler cfgRaise (initSigState [])).uncaught = (initSigState []).uncaught)
      ∧ ((handle_second_ctrl_c cfgRaise (initSigState [])).terminated = true
        ∧ (handle_second_ctrl_c cfgRaise (initSigState [])).uncaught = (initSigState []).uncaught)
      ∧ ((sigterm_handler cfgRaise (initSigState [])).uncaught = true
        ∧ (sigterm_handler cfgRaise (initSigState [])).terminated = false)
      ∧ ((wait_for_resume cfgRaise false (initSigState [])).uncaught = true
        ∧ (wait_for_resume cfgRaise false (initSigState [])).waiting_for_input = false)) :=
  ⟨⟨rfl, rfl, rfl, rfl, rfl, rfl, rfl, rfl, rfl⟩,
    claim_C6_callback_exceptions cfgRaise (initSigState [])
      rfl rfl rfl rfl rfl rfl rfl rfl rfl⟩

/-- Claim C7: on a first interrupt while running (not terminated, not
exiting, no prior Ctrl+C), with all tasks not yet cancelled, the handler
cancels exactly those live tasks whose name contains one of the configured
interruptible-task patterns as a substring; every task whose name matches
no pattern — and every already-done task — is left exactly as it was. -/
theorem claim_C7_cancel_exactly_matching (cfg : HandlerConfig) (s : SigState)
    (hterm : s.terminated = false) (hexi : s.exiting = false)
    (hcc : s.ctrl_c_pressed = false)
    (hfresh : ∀ t ∈ s.tasks, t.cancelled = false) :
    List.Forall₂ (fun t u =>
        (t.done = false →
          (u.cancelled = true ↔
            ∃ p ∈ cfg.interruptible_task_patterns, ∃ l r, t.name = l ++ p ++ r))
        ∧ (t.done = true → u = t)
        ∧ ((∀ p ∈ cfg.interruptible_task_patterns, ∀ l r, t.name ≠ l ++ p ++ r) → u = t))
      s.tasks (sigint_handler cfg s).tasks := by
  have htasks : (sigint_handler cfg s).tasks
      = s.tasks.map (cancelIfMatches cfg.interruptible_task_patterns) := by
    simp only [sigint_handler, hterm, hexi, hcc]
    simp [cancel_interruptible_tasks]
    cases cfg.has_pause_callback <;> simp
  rw [htasks, List.forall₂_map_right_iff, List.forall₂_same]
  intro t ht
  refine ⟨?_, ?_, ?_⟩
  · intro hd
    cases hm : taskMatches cfg.interruptible_task_patterns t.name with
    | true =>
      have hu : cancelIfMatches cfg.interruptible_task_patterns t
          = { t with cancelled := true } := by
        simp [cancelIfMatches, hd, hm]
      rw [hu]
      exact ⟨fun _ => (taskMatches_iff _ _).mp hm, fun _ => rfl⟩
    | false =>
      have hu : cancelIfMatches cfg.interruptible_task_patterns t = t := by
        simp [cancelIfMatches, hd, hm]
      rw [hu]
      constructor
      · intro hc
        rw [hfresh t ht] at hc
        cases hc
      · intro habs
        have := (taskMatches_iff _ _).mpr habs
        rw [hm] at this
        cases this
  · intro hd
    simp [cancelIfMatches, hd]
  · intro hnone
    have hm : taskMatches cfg.interruptible_task_patterns t.name = false := by
      cases hb : taskMatches cfg.interruptible_task_patterns t.name with
      | false => rfl
      | true =>
        obtain ⟨p, hp, l, r, hlr⟩ := (taskMatches_iff _ _).mp hb
        exact absurd hlr (hnone p hp l r)
    simp [cancelIfMatches, hm]

/-- Claim C7 witness: with the default patterns, the live task named
`agent_step_3` is characterized as cancelled, the live `browser_monitor`
task as left untouched, and the done `multi_act_run` task as untouched. -/
theorem claim_C7_witness :
    ((initSigState tasksW).terminated = false
      ∧ (initSigState tasksW).exiting = false
      ∧ (initSigState tasksW).ctrl_c_pressed = false
      ∧ ∀ t ∈ (initSigState tasksW).tasks, t.cancelled = false)
    ∧ List.Forall₂ (fun t u =>
        (t.done = false →
          (u.cancelled = true ↔
            ∃ p ∈ cfgDefault.interruptible_task_patterns, ∃ l r, t.name = l ++ p ++ r))
        ∧ (t.done = true → u = t)
        ∧ ((∀ p ∈ cfgDefault.interruptible_task_patterns, ∀ l r, t.name ≠ l ++ p ++ r) → u = t))
      (initSigState tasksW).tasks (sigint_handler cfgDefault (initSigState tasksW)).tasks :=
  ⟨⟨rfl, rfl, rfl, by decide⟩,
    claim_C7_cancel_exactly_matching cfgDefault (initSigState tasksW)
      rfl rfl rfl (by decide)⟩

/-- Claim C10 witness: the empty-content action message of `hEmptyTail` is
dropped while its 5 tokens remain counted
(`current_tokens` becomes 20, the contained sum 15). -/
theorem claim_C10_witness :
    (mkMsg "" 5 .action ∈ hEmptyTail.messages
      ∧ isExempt (mkMsg "" 5 .action) = false
      ∧ (mkMsg "" 5 .action).message.content.isEmpty = true
      ∧ 2 ≤ (messagesToProcess hEmptyTail.messages).length
      ∧ Memory.createRes ((fun _ => SummarizerResponse.results [some "s"])
          (summarizerInput hEmptyTail.messages)) = some "s"
      ∧ "s".isEmpty = false)
    ∧ (mkMsg "" 5 .action ∉ messagesToProcess hEmptyTail.messages
      ∧ mkMsg "" 5 .action ∉ (create_procedural_memory (fun _ => 15)
          (fun _ => SummarizerResponse.results [some "s"]) hEmptyTail).messages
      ∧ (create_procedural_memory (fun _ => 15)
          (fun _ => SummarizerResponse.results [some "s"]) hEmptyTail).current_tokens
        = hEmptyTail.current_tokens - (removedTokens hEmptyTail : Int) + ((15 : Nat) : Int)) :=
  ⟨⟨by decide, by decide, by decide, by decide, by decide, by decide⟩,
    claim_C10_empty_dropped_uncounted (fun _ => 15)
      (fun _ => SummarizerResponse.results [some "s"]) hEmptyTail
      (mkMsg "" 5 .action) "s" (by decide) (by decide) (by decide)
      (by decide) (by decide) (by decide)⟩

end SmartBrowsing
